import Mathlib

/-!
Verification development for the PineFetch job-queue and subprocess
supervision engine (`src/src-tauri/src/main.rs`).

The Rust source is shallowly embedded: each pure fragment of the source
becomes a Lean function with the same name, and the stateful Tauri command
handlers become explicit state-transition functions over a record `MState`
mirroring the fields of the Rust `AppState`.  External effects (the file
system, spawned subprocesses, the Tauri event sink) are modelled as
explicit parameters (existence predicates, exit codes) and as a returned
list of emitted events.  Log events (`emit_log`) are not modelled; the
state/queue/progress notifications relevant to the verified properties
are.
-/

namespace PineFetch

/-- Mirrors the Rust struct `AppConfig` (main.rs lines 15-19). -/
structure AppConfig where
  yt_dlp_path : Option String
  default_output_dir : Option String
deriving DecidableEq, Repr

/-- Mirrors the Rust struct `DownloadRequest` (main.rs lines 21-29). -/
structure DownloadRequest where
  url : String
  format : String
  output_dir : Option String
  extract_audio : Bool
  audio_format : Option String
  transcribe_text : Bool
deriving DecidableEq, Repr

/-- Mirrors the Rust struct `DownloadJob` (main.rs lines 31-40). -/
structure DownloadJob where
  id : String
  url : String
  format : String
  output_dir : String
  extract_audio : Bool
  audio_format : Option String
  transcribe_text : Bool
deriving DecidableEq, Repr

/-- Mirrors the Rust struct `DownloadStateEvent` (main.rs lines 50-57). -/
structure DownloadStateEvent where
  id : String
  state : String
  exit_code : Option Int
  error : Option String
  output_path : Option String
deriving DecidableEq, Repr

/-- Mirrors the Rust struct `DownloadProgress` (main.rs lines 42-48).
The percent is parsed from text into `f32` in the source; exactly
representable decimal values are modelled as rationals. -/
structure DownloadProgress where
  id : String
  percent : Option ℚ
  speed : Option String
  eta : Option String
deriving DecidableEq, Repr

/-- Mirrors the Rust struct `DownloadRunResult` (main.rs lines 92-96):
the exit code is a plain `i32`, so a run result always carries one. -/
structure DownloadRunResult where
  exit_code : Int
  output_path : Option String
deriving DecidableEq, Repr

/-- The mutable fields of the Rust `AppState` (main.rs lines 127-134).
Each Rust `Mutex` cell becomes a plain field; the live child handle is
modelled by whether one is present. -/
structure MState where
  config : AppConfig
  queue : List DownloadJob
  worker_running : Bool
  current_job_id : Option String
  current_child_present : Bool
  cancel_requested : Option String
deriving DecidableEq, Repr

/-- Notifications sent to the Tauri event sink (`emit_queue`, `emit_state`). -/
inductive Event where
  | queueUpdate (queue : List DownloadJob)
  | stateEvt (e : DownloadStateEvent)
deriving DecidableEq, Repr

/-- Drops a literal character sequence from the front of a list:
`dropLit lit s = some r` exactly when `s = lit ++ r`.  Used to model
Rust `str::starts_with` and literal fragments of the progress regex. -/
def dropLit : List Char → List Char → Option (List Char)
  | [], s => some s
  | _ :: _, [] => none
  | l :: ls, c :: cs => if c = l then dropLit ls cs else none

/-- The Unicode white-space characters (Rust `char::is_whitespace`, also
the default class matched by the regex escape for white space). -/
def rustSpace (c : Char) : Bool :=
  c.toNat = 32 || c.toNat = 9 || c.toNat = 10 || c.toNat = 11 ||
  c.toNat = 12 || c.toNat = 13 || c.toNat = 0x85 || c.toNat = 0xA0 ||
  c.toNat = 0x1680 || (0x2000 ≤ c.toNat && c.toNat ≤ 0x200A) ||
  c.toNat = 0x2028 || c.toNat = 0x2029 || c.toNat = 0x202F ||
  c.toNat = 0x205F || c.toNat = 0x3000

/-- Models Rust `str::trim`: removes leading and trailing Unicode
white space. -/
def rustTrim (s : String) : String :=
  String.mk (((s.toList.dropWhile rustSpace).reverse.dropWhile rustSpace).reverse)

/-- Models `is_valid_url` (main.rs lines 1019-1021). -/
def is_valid_url (url : String) : Bool :=
  (dropLit "http://".toList url.toList).isSome ||
  (dropLit "https://".toList url.toList).isSome

/-- Models `resolve_output_dir` (main.rs lines 1023-1035). -/
def resolve_output_dir (cfg : AppConfig) (requested : Option String) :
    Except String String :=
  match requested with
  | some dir =>
    if ((rustTrim dir).toList.isEmpty) then .error "Output directory is empty"
    else .ok dir
  | none =>
    match cfg.default_output_dir with
    | some d => .ok d
    | none => .error "Default output directory not set"

/-- Models `enqueue_download` (main.rs lines 285-314).  The fresh UUID is
supplied as the parameter `freshId`; note the source generates it only
after URL validation and output-directory resolution succeed.  Returns
the new state, the emitted events, and the command result.  The
`ensure_worker` call is modelled by setting the `worker_running` flag. -/
def enqueue_download (s : MState) (request : DownloadRequest) (freshId : String) :
    MState × List Event × Except String String :=
  if ¬ is_valid_url request.url then
    (s, [], .error "URL must start with http:// or https://")
  else
    match resolve_output_dir s.config request.output_dir with
    | .error e => (s, [], .error e)
    | .ok output_dir =>
      let job : DownloadJob :=
        { id := freshId, url := request.url, format := request.format
          output_dir := output_dir, extract_audio := request.extract_audio
          audio_format := request.audio_format
          transcribe_text := request.transcribe_text }
      let q' := s.queue ++ [job]
      ({ s with queue := q', worker_running := true },
        [.queueUpdate q'], .ok freshId)

/-- The outcome of a `cancel_download` call: the updated state, the
emitted events, whether the live child process was sent a kill signal,
and the command result. -/
structure CancelOutcome where
  state : MState
  events : List Event
  killed : Bool
  result : Except String Unit
deriving Repr

/-- Models `cancel_download` (main.rs lines 317-381).  The source first
retains every queued job whose id differs from the requested one; if that
removed something it emits a queue snapshot and a terminal `cancelled`
state with no exit code.  Otherwise, if the id is the current job it sets
the cancellation flag, kills the live child handle if one exists, and
emits an interim `cancelling` state.  Otherwise the call fails. -/
def cancel_download (s : MState) (id : String) : CancelOutcome :=
  let q' := s.queue.filter (fun job => job.id ≠ id)
  if s.queue.length ≠ q'.length then
    { state := { s with queue := q' }
      events := [.queueUpdate q',
        .stateEvt { id := id, state := "cancelled", exit_code := none,
                    error := none, output_path := none }]
      killed := false
      result := .ok () }
  else if s.current_job_id ≠ some id then
    { state := { s with queue := q' }
      events := []
      killed := false
      result := .error "Job not found in queue" }
  else
    { state := { s with queue := q', cancel_requested := some id }
      events := [.stateEvt { id := id, state := "cancelling", exit_code := none,
                             error := none, output_path := none }]
      killed := s.current_child_present
      result := .ok () }

/-- Models `parse_after_move_filepath` (main.rs lines 702-711): the line
is first trimmed; empty, bracket-tagged and URL lines yield no path,
every other line yields the trimmed line as the captured path. -/
def parse_after_move_filepath (line : String) : Option String :=
  let trimmed := rustTrim line
  let cs := trimmed.toList
  if cs.isEmpty then none
  else if (dropLit ['['] cs).isSome then none
  else if (dropLit "http://".toList cs).isSome then none
  else if (dropLit "https://".toList cs).isSome then none
  else some trimmed

/-- One step of the output-path capture slot maintained by the stdout
reader loop of `run_download_job` (main.rs lines 652-656): each
recognized final-path line overwrites the slot. -/
def captureStep (slot : Option String) (line : String) : Option String :=
  match parse_after_move_filepath line with
  | some p => some p
  | none => slot

/-- The capture slot after the stdout reader has processed all lines of
one job run, starting from the empty slot (main.rs lines 622, 627-658). -/
def captureRun (lines : List String) : Option String :=
  lines.foldl captureStep none

/-- Models the end of `run_download_job` (main.rs lines 676-699): the
exit code is the OS code or `-1` when absent, and the captured path is
kept only if it exists on disk (`file_on_disk` models the file system). -/
def finalize_run (captured : Option String) (file_on_disk : String → Bool)
    (status_code : Option Int) : DownloadRunResult :=
  { exit_code := status_code.getD (-1)
    output_path :=
      match captured with
      | some candidate => if file_on_disk candidate then some candidate else none
      | none => none }

/-- Models Rust `Path::with_extension("txt")` (main.rs line 915) for
ordinary `/`-separated file paths: the extension of the final path
component (the part after its last dot, unless that dot is the leading
character of the component) is replaced by `txt`; a component without an
extension gets `.txt` appended.  Degenerate paths (`.`, `..`, trailing
slash) are not normalized the way Rust's `Path` does. -/
def withExtensionTxt (path : String) : String :=
  let revAll := path.toList.reverse
  let fileRev := revAll.takeWhile (fun c => c ≠ '/')
  let dirRev := revAll.dropWhile (fun c => c ≠ '/')
  let stemRev :=
    if fileRev.contains '.' then
      let afterDot := (fileRev.dropWhile (fun c => c ≠ '.')).tail
      if afterDot.isEmpty then fileRev else afterDot
    else fileRev
  String.mk (dirRev.reverse ++ stemRev.reverse ++ ['.', 't', 'x', 't'])

/-- The error message built at main.rs lines 980-985 for a failed
transcription subprocess. -/
def whisperFailMsg (code : Int) : String :=
  "faster-whisper failed (exit code " ++ toString code ++
  "). Ensure Python deps are installed (`pip install faster-whisper`)."

/-- The external world as observed by `run_faster_whisper_transcription`:
file existence at the pre-run check, the resolved Python interpreter, the
spawn and wait outcomes, the OS exit code of the transcription subprocess
(`none` when it was terminated by a signal), and transcript-file
existence at the post-run check. -/
structure TranscriptionEnv where
  file_on_disk : String → Bool
  python : Option String
  spawn_error : Option String
  wait_error : Option String
  whisper_exit : Option Int
  transcript_on_disk : String → Bool

/-- Models `run_faster_whisper_transcription` (main.rs lines 891-992) as
a pure function of its inputs and the `TranscriptionEnv`.  The success
check on the exit status is `code = some 0` (a signal-terminated process
is not a success). -/
def run_faster_whisper_transcription (env : TranscriptionEnv)
    (output_path : Option String) : Except String String :=
  match output_path with
  | none => .error "Could not determine downloaded file path for transcription"
  | some audio_path =>
    if ¬ env.file_on_disk audio_path then
      .error ("Downloaded file not found for transcription: " ++ audio_path)
    else
      match env.python with
      | none => .error "No Python runtime found for faster-whisper (bundled runtime missing and no compatible Python in PATH)"
      | some _ =>
        let transcript_path := withExtensionTxt audio_path
        match env.spawn_error with
        | some e => .error ("Failed to start faster-whisper transcription: " ++ e)
        | none =>
          match env.wait_error with
          | some e => .error ("Failed while waiting for faster-whisper: " ++ e)
          | none =>
            if env.whisper_exit ≠ some 0 then
              .error (whisperFailMsg (env.whisper_exit.getD (-1)))
            else if ¬ env.transcript_on_disk transcript_path then
              .error "faster-whisper finished but no transcript file was created"
            else
              .ok transcript_path

/-- Models the worker's post-run decision in `ensure_worker` (main.rs
lines 438-544): given the pending cancellation flag, the finished job,
the result of `run_download_job` and the transcription environment, it
returns the new cancellation flag and the state events emitted after
process exit.  Cancellation is checked first and clears the flag; then a
nonzero exit is an error; then a requested transcription runs; otherwise
the run is a success carrying the captured output path. -/
def workerDecision (cancel_flag : Option String) (job : DownloadJob)
    (result : Except String DownloadRunResult) (env : TranscriptionEnv) :
    Option String × List DownloadStateEvent :=
  match result with
  | .error err =>
    (cancel_flag,
      [{ id := job.id, state := "error", exit_code := none,
         error := some err, output_path := none }])
  | .ok rr =>
    if cancel_flag = some job.id then
      (none,
        [{ id := job.id, state := "cancelled", exit_code := some rr.exit_code,
           error := none, output_path := none }])
    else if rr.exit_code ≠ 0 then
      (cancel_flag,
        [{ id := job.id, state := "error", exit_code := some rr.exit_code,
           error := some "yt-dlp exited with error", output_path := none }])
    else if job.transcribe_text then
      let transcribingEvt : DownloadStateEvent :=
        { id := job.id, state := "transcribing", exit_code := some rr.exit_code,
          error := none, output_path := none }
      match run_faster_whisper_transcription env rr.output_path with
      | .ok transcript_path =>
        (cancel_flag,
          [transcribingEvt,
           { id := job.id, state := "success", exit_code := some rr.exit_code,
             error := none, output_path := some transcript_path }])
      | .error err =>
        (cancel_flag,
          [transcribingEvt,
           { id := job.id, state := "error", exit_code := some rr.exit_code,
             error := some err, output_path := none }])
    else
      (cancel_flag,
        [{ id := job.id, state := "success", exit_code := some rr.exit_code,
           error := none, output_path := rr.output_path }])

/-! ### The progress-line classifier

`run_download_job` (main.rs lines 620-650) classifies each stdout line
with the regex `\[download\]\s+([\d\.]+)%.*?at\s+([^\s]+).*?ETA\s+([^\s]+)`
and, on a match, emits a progress event built from the three captures.
The matcher below implements that regex with the regex crate's
leftmost-first (Perl-style) semantics: the match starts at the leftmost
possible position; greedy pieces prefer longer, lazy pieces prefer
shorter, with backtracking.  Wherever a greedy repetition is followed by
a character disjoint from its class (the spaces, the percent-number, the
final tokens) maximal munch is equivalent to backtracking and is used
directly; the rate capture, whose backtracking is observable, is
implemented with full backtracking. -/

/-- The character class of the regex fragment `[\d\.]`: an ASCII digit or
a dot.  (Non-ASCII decimal digits from the Unicode Nd category are not
modelled.) -/
def digitDot (c : Char) : Bool :=
  (48 ≤ c.toNat && c.toNat ≤ 57) || c.toNat = 46

/-- The character class of the regex fragment `[^\s]`. -/
def nonSpace (c : Char) : Bool :=
  !rustSpace c

/-- Greedy `+` over a character class where the following regex piece is
disjoint from the class: take the maximal nonempty run and the rest. -/
def munchPlus (cls : Char → Bool) (s : List Char) :
    Option (List Char × List Char) :=
  if (s.takeWhile cls).isEmpty then none
  else some (s.takeWhile cls, s.dropWhile cls)

/-- Lazy `.*?` before a sub-matcher `m`: try `m` at the current position
first, then skip one non-newline character and retry. -/
def lazySkip (m : List Char → Option α) : List Char → Option α
  | [] => m []
  | c :: cs =>
    match m (c :: cs) with
    | some r => some r
    | none => if c ≠ '\n' then lazySkip m cs else none

/-- The unanchored search for the start of the whole match: try every
start position from the left. -/
def anySkip (m : List Char → Option α) : List Char → Option α
  | [] => m []
  | c :: cs =>
    match m (c :: cs) with
    | some r => some r
    | none => anySkip m cs

/-- The regex tail `ETA\s+([^\s]+)` at the current position, returning
the third capture. -/
def matchEtaAt (s : List Char) : Option (List Char) :=
  (dropLit ['E', 'T', 'A'] s).bind fun afterLit =>
    (munchPlus rustSpace afterLit).bind fun x =>
      (munchPlus nonSpace x.2).map fun y => y.1

/-- The regex fragment `.*?ETA\s+([^\s]+)`. -/
def searchEta : List Char → Option (List Char) :=
  lazySkip matchEtaAt

/-- Backtracking loop of the greedy rate capture `([^\s]+)` followed by
`.*?ETA\s+([^\s]+)`: `acc` holds the reversed capture so far (nonempty);
extending the capture is preferred, stopping it and matching the tail is
the fallback. -/
def group2Aux : List Char → List Char → Option (List Char × List Char)
  | acc, [] => (searchEta []).map fun eta => (acc.reverse, eta)
  | acc, c :: cs =>
    if nonSpace c then
      (group2Aux (c :: acc) cs).or
        ((searchEta (c :: cs)).map fun eta => (acc.reverse, eta))
    else
      (searchEta (c :: cs)).map fun eta => (acc.reverse, eta)

/-- The regex fragment `([^\s]+).*?ETA\s+([^\s]+)`, returning the rate
and ETA captures. -/
def group2Search : List Char → Option (List Char × List Char)
  | [] => none
  | c :: cs => if nonSpace c then group2Aux [c] cs else none

/-- The regex fragment `at\s+([^\s]+).*?ETA\s+([^\s]+)` at the current
position. -/
def matchAtPos (s : List Char) : Option (List Char × List Char) :=
  (dropLit ['a', 't'] s).bind fun afterLit =>
    (munchPlus rustSpace afterLit).bind fun x =>
      group2Search x.2

/-- The regex fragment `.*?at\s+([^\s]+).*?ETA\s+([^\s]+)`. -/
def searchAt : List Char → Option (List Char × List Char) :=
  lazySkip matchAtPos

/-- The anchored front of the regex,
`\[download\]\s+([\d\.]+)%` followed by the rest, at the current
position; returns the percent, rate and ETA captures. -/
def matchDownloadAt (s : List Char) : Option (List Char × List Char × List Char) :=
  (dropLit "[download]".toList s).bind fun afterTag =>
    (munchPlus rustSpace afterTag).bind fun x =>
      (munchPlus digitDot x.2).bind fun y =>
        (dropLit ['%'] y.2).bind fun rest =>
          (searchAt rest).map fun z => (y.1, z.1, z.2)

/-- The whole unanchored regex search over one line. -/
def progressSearch : List Char → Option (List Char × List Char × List Char) :=
  anySkip matchDownloadAt

/-- The three captures of `progress_re.captures(&line)` (main.rs lines
620, 637-640) as strings. -/
def progress_captures (line : String) : Option (String × String × String) :=
  (progressSearch line.toList).map fun x =>
    (String.mk x.1, String.mk x.2.1, String.mk x.2.2)

/-- Numeric value of a digit string (most significant first). -/
def digitsVal (cs : List Char) : ℕ :=
  cs.foldl (fun a c => a * 10 + (c.toNat - 48)) 0

/-- Models `str::parse::<f32>()` on strings drawn from the class
`[\d\.]+` (the only strings it is applied to in the source): at most one
dot and at least one digit are accepted, and the value is returned as an
exact rational (`f32` rounding of the decimal value is not modelled). -/
def parse_f32 (s : String) : Option ℚ :=
  let cs := s.toList
  if cs.isEmpty then none
  else if cs.any (fun c => ¬ digitDot c) then none
  else if 2 ≤ cs.count '.' then none
  else if ¬ cs.any (fun c => 48 ≤ c.toNat && c.toNat ≤ 57) then none
  else
    let intPart := cs.takeWhile (fun c => c ≠ '.')
    let fracPart := (cs.dropWhile (fun c => c ≠ '.')).tail
    some (mkRat (digitsVal intPart * 10 ^ fracPart.length + digitsVal fracPart)
      (10 ^ fracPart.length))

/-- The progress event built from a matching line in the stdout loop of
`run_download_job` (main.rs lines 637-650): `none` when the regex does
not match the line. -/
def classify_progress (id : String) (line : String) : Option DownloadProgress :=
  (progress_captures line).map fun x =>
    { id := id, percent := parse_f32 x.1, speed := some x.2.1, eta := some x.2.2 }

/-- A nonempty run of white-space characters. -/
def spaceRun (l : List Char) : Prop :=
  l ≠ [] ∧ ∀ c ∈ l, rustSpace c = true

/-- A nonempty run of non-white-space characters (a token). -/
def nonSpaceRun (l : List Char) : Prop :=
  l ≠ [] ∧ ∀ c ∈ l, rustSpace c = false

/-- A nonempty run of digit-or-dot characters (a percentage number). -/
def numRun (l : List Char) : Prop :=
  l ≠ [] ∧ ∀ c ∈ l, digitDot c = true

/-- A possibly empty stretch of characters the regex dot can cross (no
newline). -/
def noNewline (l : List Char) : Prop :=
  ∀ c ∈ l, c ≠ '\n'

/-- The fixed pattern described by the specification for a progress
line: a `[download]` tag, a percentage number, the token `at`, a rate
token, the token `ETA` and an ETA token, with arbitrary surrounding
material tolerated. -/
def ProgressShape (line : String) : Prop :=
  ∃ pre sp1 num mid1 sp2 rate mid2 sp3 eta post : List Char,
    line.toList =
      pre ++ "[download]".toList ++ sp1 ++ num ++ ['%'] ++ mid1 ++
        ['a', 't'] ++ sp2 ++ rate ++ mid2 ++ ['E', 'T', 'A'] ++ sp3 ++ eta ++ post ∧
    spaceRun sp1 ∧ numRun num ∧ noNewline mid1 ∧ spaceRun sp2 ∧
    nonSpaceRun rate ∧ noNewline mid2 ∧ spaceRun sp3 ∧ nonSpaceRun eta

/-! ### Helper lemmas -/

/-- The last element of a cons, phrased with `Option.or`. -/
theorem getLast?_cons_eq_or (a : α) (l : List α) :
    (a :: l).getLast? = l.getLast?.or (some a) := by
  cases l with
  | nil => rfl
  | cons b bs =>
    rw [List.getLast?_cons_cons]
    rcases h : (b :: bs).getLast? with _ | x
    · simp at h
    · rfl

/-- The capture slot after a fold is the last recognized path, falling
back to the starting slot. -/
theorem foldl_captureStep (lines : List String) (slot : Option String) :
    lines.foldl captureStep slot =
      ((lines.filterMap parse_after_move_filepath).getLast?).or slot := by
  induction lines generalizing slot with
  | nil => rfl
  | cons l ls ih =>
    rw [List.foldl_cons, ih]
    rcases h : parse_after_move_filepath l with _ | p
    · rw [List.filterMap_cons_none h]
      simp only [captureStep, h]
    · rw [List.filterMap_cons_some h, getLast?_cons_eq_or]
      simp only [captureStep, h]
      rcases (List.filterMap parse_after_move_filepath ls).getLast? with _ | q <;> rfl

/-! ### Claim theorems -/

/-- C1: on process exit, a pending cancellation flag matching the job id
is cleared and the worker emits the single terminal state `cancelled`
with the run's exit code attached and no error text, for every exit code
(including nonzero ones) and regardless of the transcription setting:
cancellation takes priority over reporting a process error. -/
theorem cancel_priority_on_exit (cancel : Option String) (job : DownloadJob)
    (rr : DownloadRunResult) (env : TranscriptionEnv)
    (h : cancel = some job.id) :
    workerDecision cancel job (.ok rr) env =
      (none, [{ id := job.id, state := "cancelled", exit_code := some rr.exit_code,
                error := none, output_path := none }]) := by
  subst h
  simp [workerDecision]

/-- Witness for C1: a cancelled job whose process exited with the
nonzero code 137 and with transcription requested still ends
`cancelled`, with the flag cleared, the exit code attached and no error
text. -/
theorem cancel_priority_on_exit_witness :
    workerDecision (some "j1")
      { id := "j1", url := "https://e.example/v", format := "best",
        output_dir := "/out", extract_audio := false, audio_format := none,
        transcribe_text := true }
      (.ok { exit_code := 137, output_path := none })
      { file_on_disk := fun _ => false, python := none, spawn_error := none,
        wait_error := none, whisper_exit := none,
        transcript_on_disk := fun _ => false } =
      (none, [{ id := "j1", state := "cancelled", exit_code := some 137,
                error := none, output_path := none }]) :=
  cancel_priority_on_exit _ _ _ _ rfl

/-- C2: `cancel_download` behaves three ways, exhaustively.  If the id is
among the pending queued jobs (which have pairwise distinct ids), exactly
that job is removed, a queue snapshot and a terminal `cancelled` state
with no exit code are emitted, no process is killed, and the call
returns success.  Else, if the id is the current job's id, the
cancellation flag is set to it, the live child is killed exactly when a
handle exists, an interim `cancelling` state is emitted, and the call
returns success.  Else the call fails with the job-not-found error. -/
theorem cancel_download_trichotomy (s : MState) (id : String) :
    (∀ l1 j l2, (s.queue.map DownloadJob.id).Nodup →
      s.queue = l1 ++ j :: l2 → j.id = id →
      cancel_download s id =
        { state := { s with queue := l1 ++ l2 }
          events := [.queueUpdate (l1 ++ l2),
            .stateEvt { id := id, state := "cancelled", exit_code := none,
                        error := none, output_path := none }]
          killed := false
          result := .ok () }) ∧
    ((∀ j ∈ s.queue, j.id ≠ id) → s.current_job_id = some id →
      cancel_download s id =
        { state := { s with cancel_requested := some id }
          events := [.stateEvt { id := id, state := "cancelling",
                                 exit_code := none, error := none,
                                 output_path := none }]
          killed := s.current_child_present
          result := .ok () }) ∧
    ((∀ j ∈ s.queue, j.id ≠ id) → s.current_job_id ≠ some id →
      cancel_download s id =
        { state := s, events := [], killed := false,
          result := .error "Job not found in queue" }) := by
  refine ⟨?_, ?_, ?_⟩
  · intro l1 j l2 hnd hq hjid
    rw [hq] at hnd
    simp only [List.map_append, List.map_cons, List.nodup_append,
      List.nodup_cons, List.disjoint_cons_right] at hnd
    have hl1 : ∀ x ∈ l1, (x.id ≠ id) := by
      intro x hx hxid
      have hmem : x.id ∈ List.map DownloadJob.id l1 :=
        List.mem_map_of_mem DownloadJob.id hx
      rw [hxid, ← hjid] at hmem
      exact hnd.2.2.1 hmem
    have hl2 : ∀ x ∈ l2, (x.id ≠ id) := by
      intro x hx hxid
      have hmem : x.id ∈ List.map DownloadJob.id l2 :=
        List.mem_map_of_mem DownloadJob.id hx
      rw [hxid, ← hjid] at hmem
      exact hnd.2.1.1 hmem
    have hfil : s.queue.filter (fun job => job.id ≠ id) = l1 ++ l2 := by
      rw [hq, List.filter_append, List.filter_cons_of_neg (by simp [hjid]),
        List.filter_eq_self.mpr (by intro a ha; simpa using hl1 a ha),
        List.filter_eq_self.mpr (by intro a ha; simpa using hl2 a ha)]
    have hlen : s.queue.length ≠ (l1 ++ l2).length := by
      rw [hq]
      simp only [List.length_append, List.length_cons]
      omega
    simp only [cancel_download, hfil]
    rw [if_pos hlen]
  · intro hq hcur
    have hfil : s.queue.filter (fun job => job.id ≠ id) = s.queue :=
      List.filter_eq_self.mpr (by intro a ha; simpa using hq a ha)
    simp only [cancel_download, hfil, hcur]
    rw [if_neg (by omega : ¬ s.queue.length ≠ s.queue.length)]
    rw [if_neg (by simp : ¬ (some id ≠ some id))]
  · intro hq hcur
    have hfil : s.queue.filter (fun job => job.id ≠ id) = s.queue :=
      List.filter_eq_self.mpr (by intro a ha; simpa using hq a ha)
    simp only [cancel_download, hfil]
    rw [if_neg (by omega : ¬ s.queue.length ≠ s.queue.length)]
    rw [if_pos hcur]

/-- Witness for C2: cancelling the only pending job removes it, emits
the snapshot and the terminal `cancelled` state with no exit code, and
succeeds. -/
theorem cancel_download_trichotomy_witness :
    cancel_download
      { config := { yt_dlp_path := none, default_output_dir := some "/out" }
        queue := [{ id := "a", url := "https://e.example/v", format := "best",
                    output_dir := "/out", extract_audio := false,
                    audio_format := none, transcribe_text := false }]
        worker_running := true, current_job_id := none
        current_child_present := false, cancel_requested := none } "a" =
      { state :=
          { config := { yt_dlp_path := none, default_output_dir := some "/out" }
            queue := [], worker_running := true, current_job_id := none
            current_child_present := false, cancel_requested := none }
        events := [.queueUpdate [],
          .stateEvt { id := "a", state := "cancelled", exit_code := none,
                      error := none, output_path := none }]
        killed := false
        result := .ok () } := by
  have h := (cancel_download_trichotomy
    { config := { yt_dlp_path := none, default_output_dir := some "/out" }
      queue := [{ id := "a", url := "https://e.example/v", format := "best",
                  output_dir := "/out", extract_audio := false,
                  audio_format := none, transcribe_text := false }]
      worker_running := true, current_job_id := none
      current_child_present := false, cancel_requested := none } "a").1
    [] _ [] (by simp) rfl rfl
  simpa using h

/-- C3: an enqueue request whose locator is not an http(s) URL is
rejected with the validation error, the state (in particular the queue)
is unchanged, no event is emitted, and no job id is returned. -/
theorem enqueue_invalid_url_rejected (s : MState) (request : DownloadRequest)
    (freshId : String) (h : is_valid_url request.url = false) :
    enqueue_download s request freshId =
      (s, [], .error "URL must start with http:// or https://") := by
  simp [enqueue_download, h]

/-- Witness for C3: a request with an `ftp://` locator is rejected and
the state is returned unchanged. -/
theorem enqueue_invalid_url_rejected_witness :
    enqueue_download
      { config := { yt_dlp_path := none, default_output_dir := some "/out" }
        queue := [], worker_running := false, current_job_id := none
        current_child_present := false, cancel_requested := none }
      { url := "ftp://host/file", format := "best", output_dir := none,
        extract_audio := false, audio_format := none, transcribe_text := false }
      "fresh-id" =
      ({ config := { yt_dlp_path := none, default_output_dir := some "/out" }
         queue := [], worker_running := false, current_job_id := none
         current_child_present := false, cancel_requested := none },
        [], .error "URL must start with http:// or https://") :=
  enqueue_invalid_url_rejected _ _ _ (by decide)

/-- C9: cancelling an id that is neither queued nor current fails with
an error and is a complete no-op: the state is returned unchanged, no
event is emitted and no process is killed. -/
theorem cancel_unknown_id_noop (s : MState) (id : String)
    (hq : ∀ j ∈ s.queue, j.id ≠ id) (hcur : s.current_job_id ≠ some id) :
    cancel_download s id =
      { state := s, events := [], killed := false,
        result := .error "Job not found in queue" } :=
  (cancel_download_trichotomy s id).2.2 hq hcur

/-- Witness for C9: cancelling an unknown id on a state with one queued
job and a different current job changes nothing and errors. -/
theorem cancel_unknown_id_noop_witness :
    cancel_download
      { config := { yt_dlp_path := none, default_output_dir := some "/out" }
        queue := [{ id := "a", url := "https://e.example/v", format := "best",
                    output_dir := "/out", extract_audio := false,
                    audio_format := none, transcribe_text := false }]
        worker_running := true, current_job_id := some "b"
        current_child_present := true, cancel_requested := none } "zzz" =
      { state :=
          { config := { yt_dlp_path := none, default_output_dir := some "/out" }
            queue := [{ id := "a", url := "https://e.example/v", format := "best",
                        output_dir := "/out", extract_audio := false,
                        audio_format := none, transcribe_text := false }]
            worker_running := true, current_job_id := some "b"
            current_child_present := true, cancel_requested := none }
        events := [], killed := false,
        result := .error "Job not found in queue" } :=
  cancel_unknown_id_noop _ _ (by intro j hj; simp at hj; simp [hj]) (by simp)

/-- C10: once the primary process has been spawned, the run result's
exit code is an `Int`, never absent: when the OS reports no exit code
(for example after a signal kill) it is `-1`, otherwise it is the OS
code. -/
theorem exit_code_never_absent :
    (∀ captured file_on_disk,
      (finalize_run captured file_on_disk none).exit_code = -1) ∧
    (∀ captured file_on_disk c,
      (finalize_run captured file_on_disk (some c)).exit_code = c) :=
  ⟨fun _ _ => rfl, fun _ _ _ => rfl⟩

/-- C8: a run that exits 0 with a captured path that does not exist on
disk at run end produces a run result with no output path, and the
terminal success state emitted for it carries no output path either. -/
theorem missing_file_drops_output_path (p : String) (file_on_disk : String → Bool)
    (job : DownloadJob) (cancel : Option String) (env : TranscriptionEnv)
    (hp : file_on_disk p = false)
    (hc : cancel ≠ some job.id) (ht : job.transcribe_text = false) :
    (finalize_run (some p) file_on_disk (some 0)).output_path = none ∧
    (workerDecision cancel job
        (.ok (finalize_run (some p) file_on_disk (some 0))) env).2 =
      [{ id := job.id, state := "success", exit_code := some 0, error := none,
         output_path := none }] := by
  have h1 : finalize_run (some p) file_on_disk (some 0) =
      { exit_code := 0, output_path := none } := by
    simp [finalize_run, hp]
  rw [h1]
  exact ⟨rfl, by simp [workerDecision, hc, ht]⟩

/-- Witness for C8: a captured path missing from disk yields a success
state with no output path. -/
theorem missing_file_drops_output_path_witness :
    (finalize_run (some "/out/v.mp4") (fun _ => false) (some 0)).output_path = none ∧
    (workerDecision none
        { id := "j8", url := "https://e.example/v", format := "best",
          output_dir := "/out", extract_audio := false, audio_format := none,
          transcribe_text := false }
        (.ok (finalize_run (some "/out/v.mp4") (fun _ => false) (some 0)))
        { file_on_disk := fun _ => false, python := none, spawn_error := none,
          wait_error := none, whisper_exit := none,
          transcript_on_disk := fun _ => false }).2 =
      [{ id := "j8", state := "success", exit_code := some 0, error := none,
         output_path := none }] :=
  missing_file_drops_output_path "/out/v.mp4" _ _ _ _ rfl (by simp) rfl

/-- C7 counterexample: two recognized final-path lines in one run leave
the capture slot holding the second one, so a later recognized line
does overwrite the earlier capture, contrary to the claim's
set-once-never-overwritten reading. -/
theorem capture_overwrite_counterexample :
    captureRun ["/a", "/b"] = some "/b" ∧ captureRun ["/a", "/b"] ≠ some "/a" := by
  constructor <;> decide

/-- C7 (amended): within one job run the capture slot holds the most
recently recognized final-path line — each recognized line overwrites the
slot, and the value at run end is the last recognized line. -/
theorem capture_last_recognized (lines : List String) :
    captureRun lines = (lines.filterMap parse_after_move_filepath).getLast? := by
  rw [captureRun, foldl_captureStep]
  rcases (lines.filterMap parse_after_move_filepath).getLast? with _ | p <;> rfl

/-- C6 counterexample: a line with surrounding white space is trimmed,
so the captured path is not the line itself: the conditions of the claim
hold of the line `" /a "`, yet the capture is the trimmed `"/a"`. -/
theorem after_move_path_trim_counterexample :
    parse_after_move_filepath " /a " = some "/a" ∧
    parse_after_move_filepath " /a " ≠ some " /a " := by
  constructor <;> decide

/-- C6 (amended): the line is first trimmed of surrounding white space;
if the trimmed line is non-empty, does not begin with `[`, and does not
start with `http://` or `https://`, the captured path is the trimmed
line.  The claim's concrete examples hold as stated. -/
theorem after_move_path_spec :
    (∀ line : String,
      (rustTrim line).toList.isEmpty = false →
      (dropLit ['['] (rustTrim line).toList).isSome = false →
      (dropLit "http://".toList (rustTrim line).toList).isSome = false →
      (dropLit "https://".toList (rustTrim line).toList).isSome = false →
      parse_after_move_filepath line = some (rustTrim line)) ∧
    parse_after_move_filepath "/home/u/Videos/My Video.mp4" =
      some "/home/u/Videos/My Video.mp4" ∧
    parse_after_move_filepath "https://example.com/x" = none ∧
    parse_after_move_filepath "[download] Destination: x" = none ∧
    parse_after_move_filepath "" = none := by
  refine ⟨?_, by decide, by decide, by decide, by decide⟩
  intro line h1 h2 h3 h4
  simp only [parse_after_move_filepath, h1, h2, h3, h4, Bool.false_eq_true,
    if_false]

/-- Witness for C6: the amended rule applied to a plain absolute path
line. -/
theorem after_move_path_spec_witness :
    parse_after_move_filepath "/home/u/x.mp4" = some (rustTrim "/home/u/x.mp4") :=
  after_move_path_spec.1 "/home/u/x.mp4" (by decide) (by decide) (by decide)
    (by decide)

/-- C4 counterexample: with the primary run exiting 0 and the
transcription subprocess exiting 2, the terminal `error` event attaches
the primary run's exit code 0 — not the transcription subprocess's
nonzero exit code, which only appears in the error text. -/
theorem transcription_error_exit_code_counterexample :
    (workerDecision none
        { id := "j4", url := "https://e.example/v", format := "best",
          output_dir := "/out", extract_audio := false, audio_format := none,
          transcribe_text := true }
        (.ok { exit_code := 0, output_path := some "/out/a.mp3" })
        { file_on_disk := fun _ => true, python := some "python3",
          spawn_error := none, wait_error := none, whisper_exit := some 2,
          transcript_on_disk := fun _ => true }).2 =
      [{ id := "j4", state := "transcribing", exit_code := some 0, error := none,
         output_path := none },
       { id := "j4", state := "error", exit_code := some 0,
         error := some (whisperFailMsg 2), output_path := none }] ∧
    (some (0 : Int) ≠ some (2 : Int)) := by
  constructor
  · rfl
  · decide

/-- C4 (amended): for a transcription-requested job whose primary run
exited 0 with an existing output file, a resolvable Python runtime and a
successfully spawned and awaited transcription subprocess: exit 0 with
the sibling `.txt` file present yields terminal `success` with that
`.txt` path; a nonzero exit `c` yields terminal `error` with no output
path, the primary run's exit code 0 attached, and the transcription exit
code `c` reported in the error text. -/
theorem transcription_outcomes (cancel : Option String) (job : DownloadJob)
    (rr : DownloadRunResult) (env : TranscriptionEnv) (audio : String)
    (hc : cancel ≠ some job.id) (ht : job.transcribe_text = true)
    (hexit : rr.exit_code = 0) (hout : rr.output_path = some audio)
    (hdisk : env.file_on_disk audio = true) (hpy : env.python.isSome = true)
    (hspawn : env.spawn_error = none) (hwait : env.wait_error = none) :
    (env.whisper_exit = some 0 →
      env.transcript_on_disk (withExtensionTxt audio) = true →
      workerDecision cancel job (.ok rr) env =
        (cancel,
          [{ id := job.id, state := "transcribing", exit_code := some 0,
             error := none, output_path := none },
           { id := job.id, state := "success", exit_code := some 0,
             error := none, output_path := some (withExtensionTxt audio) }])) ∧
    (∀ c : Int, env.whisper_exit = some c → c ≠ 0 →
      workerDecision cancel job (.ok rr) env =
        (cancel,
          [{ id := job.id, state := "transcribing", exit_code := some 0,
             error := none, output_path := none },
           { id := job.id, state := "error", exit_code := some 0,
             error := some (whisperFailMsg c), output_path := none }])) := by
  obtain ⟨py, hpy'⟩ := Option.isSome_iff_exists.mp hpy
  constructor
  · intro hw htr
    simp [workerDecision, hc, hexit, ht, run_faster_whisper_transcription, hout,
      hdisk, hpy', hspawn, hwait, hw, htr]
  · intro c hw hcz
    have hne : env.whisper_exit ≠ some 0 := by
      rw [hw]; simp [hcz]
    simp [workerDecision, hc, hexit, ht, run_faster_whisper_transcription, hout,
      hdisk, hpy', hspawn, hwait, hne, hw, hcz]

/-- Witness for C4: a successful transcription of `/out/a.mp3` ends in
`success` with the sibling `/out/a.txt` as the output path. -/
theorem transcription_outcomes_witness :
    workerDecision none
      { id := "j4w", url := "https://e.example/v", format := "best",
        output_dir := "/out", extract_audio := false, audio_format := none,
        transcribe_text := true }
      (.ok { exit_code := 0, output_path := some "/out/a.mp3" })
      { file_on_disk := fun _ => true, python := some "python3",
        spawn_error := none, wait_error := none, whisper_exit := some 0,
        transcript_on_disk := fun _ => true } =
      (none,
        [{ id := "j4w", state := "transcribing", exit_code := some 0,
           error := none, output_path := none },
         { id := "j4w", state := "success", exit_code := some 0,
           error := none, output_path := some "/out/a.txt" }]) := by
  have h := (transcription_outcomes none
    { id := "j4w", url := "https://e.example/v", format := "best",
      output_dir := "/out", extract_audio := false, audio_format := none,
      transcribe_text := true }
    { exit_code := 0, output_path := some "/out/a.mp3" }
    { file_on_disk := fun _ => true, python := some "python3",
      spawn_error := none, wait_error := none, whisper_exit := some 0,
      transcript_on_disk := fun _ => true }
    "/out/a.mp3" (by simp) rfl rfl rfl rfl rfl rfl rfl).1 rfl rfl
  simpa using h

/-! ### Lemmas about the progress-regex matcher -/

/-- Success of an `Option.bind`, unfolded. -/
theorem bindIsSome (o : Option α) (f : α → Option β) :
    ((o.bind f).isSome = true) ↔ ∃ a, o = some a ∧ (f a).isSome = true := by
  cases o <;> simp

/-- Success of an `Option.or`, unfolded. -/
theorem orIsSome (a b : Option α) :
    ((a.or b).isSome = true) ↔ a.isSome = true ∨ b.isSome = true := by
  cases a <;> simp [Option.or]

/-- `dropLit` succeeds exactly on lists starting with the literal. -/
theorem dropLit_eq_some_iff : ∀ (l s r : List Char),
    dropLit l s = some r ↔ s = l ++ r
  | [], s, r => by simp [dropLit]
  | a :: ls, [], r => by simp [dropLit]
  | a :: ls, c :: cs, r => by
    by_cases h : c = a
    · subst h
      simp [dropLit, dropLit_eq_some_iff ls cs r]
    · simp [dropLit, h, Ne.symm h]

/-- What a successful maximal munch yields. -/
theorem munchPlus_eq_some {cls : Char → Bool} {s a r : List Char}
    (h : munchPlus cls s = some (a, r)) :
    s = a ++ r ∧ a ≠ [] ∧ ∀ c ∈ a, cls c = true := by
  unfold munchPlus at h
  split at h
  · exact absurd h (by simp)
  · rename_i he
    simp only [Option.some.injEq, Prod.mk.injEq] at h
    obtain ⟨ha, hr⟩ := h
    subst ha; subst hr
    refine ⟨(List.takeWhile_append_dropWhile cls s).symm, ?_, ?_⟩
    · intro hnil
      simp [hnil] at he
    · intro c hc
      exact List.mem_takeWhile_imp hc

/-- `takeWhile`/`dropWhile` on a run of the class followed by a failing
character. -/
theorem takeWhile_append_cons {cls : Char → Bool} :
    ∀ (a : List Char) (x : Char) (rest : List Char),
    (∀ c ∈ a, cls c = true) → cls x = false →
    ((a ++ x :: rest).takeWhile cls = a ∧ (a ++ x :: rest).dropWhile cls = x :: rest)
  | [], x, rest, _, hx => by
    simp [List.takeWhile_cons, List.dropWhile_cons, hx]
  | c :: cs, x, rest, ha, hx => by
    have hc : cls c = true := ha c (List.mem_cons_self c cs)
    have ih := takeWhile_append_cons cs x rest
      (fun d hd => ha d (List.mem_cons_of_mem c hd)) hx
    simp [List.takeWhile_cons, List.dropWhile_cons, hc, ih.1, ih.2]

/-- Maximal munch on a class run followed by a failing character is
exactly that run. -/
theorem munchPlus_append {cls : Char → Bool} {a : List Char} {x : Char}
    {rest : List Char} (ha : ∀ c ∈ a, cls c = true) (hne : a ≠ [])
    (hx : cls x = false) :
    munchPlus cls (a ++ x :: rest) = some (a, x :: rest) := by
  have h := takeWhile_append_cons a x rest ha hx
  unfold munchPlus
  rw [h.1, h.2, if_neg (by simp [hne])]

/-- Maximal munch succeeds whenever the head satisfies the class. -/
theorem munchPlus_isSome_cons {cls : Char → Bool} {c : Char} (cs : List Char)
    (hc : cls c = true) : (munchPlus cls (c :: cs)).isSome = true := by
  unfold munchPlus
  simp [List.takeWhile_cons, hc]

/-- The lazy-dot-star search succeeds exactly when the sub-matcher
succeeds after skipping some newline-free prefix. -/
theorem lazySkip_isSome (m : List Char → Option α) (s : List Char) :
    ((lazySkip m s).isSome = true) ↔
      ∃ skip rest, s = skip ++ rest ∧ (∀ c ∈ skip, c ≠ '\n') ∧
        (m rest).isSome = true := by
  induction s with
  | nil =>
    rw [lazySkip]
    constructor
    · intro h
      exact ⟨[], [], rfl, by simp, h⟩
    · rintro ⟨skip, rest, hs, _, hm⟩
      obtain ⟨rfl, rfl⟩ := List.append_eq_nil.mp hs.symm
      exact hm
  | cons c cs ih =>
    rw [lazySkip]
    cases hm : m (c :: cs) with
    | some r =>
      simp only [Option.isSome_some, true_iff]
      exact ⟨[], c :: cs, rfl, by simp, by simp [hm]⟩
    | none =>
      by_cases hc : c = '\n'
      · rw [if_neg (by simp [hc])]
        simp only [Option.isSome_none, Bool.false_eq_true, false_iff]
        rintro ⟨skip, rest, hs, hnl, hm2⟩
        cases skip with
        | nil =>
          rw [List.nil_append] at hs
          rw [← hs] at hm2
          simp [hm] at hm2
        | cons k ks =>
          rw [List.cons_append] at hs
          exact hnl k (List.mem_cons_self k ks) (by rw [← (List.cons.injEq ..).mp hs |>.1, hc])
      · rw [if_pos (by simp [hc]), ih]
        constructor
        · rintro ⟨skip, rest, hs, hnl, hm2⟩
          exact ⟨c :: skip, rest, by rw [hs, List.cons_append],
            by intro d hd
               rcases List.mem_cons.mp hd with h | h
               · rw [h]; exact hc
               · exact hnl d h,
            hm2⟩
        · rintro ⟨skip, rest, hs, hnl, hm2⟩
          cases skip with
          | nil =>
            rw [List.nil_append] at hs
            rw [← hs] at hm2
            simp [hm] at hm2
          | cons k ks =>
            rw [List.cons_append] at hs
            obtain ⟨hkc, hcs⟩ := (List.cons.injEq ..).mp hs
            exact ⟨ks, rest, hcs, fun d hd => hnl d (List.mem_cons_of_mem k hd), hm2⟩

/-- The unanchored search succeeds exactly when the sub-matcher succeeds
at some position. -/
theorem anySkip_isSome (m : List Char → Option α) (s : List Char) :
    ((anySkip m s).isSome = true) ↔
      ∃ skip rest, s = skip ++ rest ∧ (m rest).isSome = true := by
  induction s with
  | nil =>
    rw [anySkip]
    constructor
    · intro h
      exact ⟨[], [], rfl, h⟩
    · rintro ⟨skip, rest, hs, hm⟩
      obtain ⟨rfl, rfl⟩ := List.append_eq_nil.mp hs.symm
      exact hm
  | cons c cs ih =>
    rw [anySkip]
    cases hm : m (c :: cs) with
    | some r =>
      simp only [Option.isSome_some, true_iff]
      exact ⟨[], c :: cs, rfl, by simp [hm]⟩
    | none =>
      rw [ih]
      constructor
      · rintro ⟨skip, rest, hs, hm2⟩
        exact ⟨c :: skip, rest, by rw [hs, List.cons_append], hm2⟩
      · rintro ⟨skip, rest, hs, hm2⟩
        cases skip with
        | nil =>
          rw [List.nil_append] at hs
          rw [← hs] at hm2
          simp [hm] at hm2
        | cons k ks =>
          rw [List.cons_append] at hs
          obtain ⟨hkc, hcs⟩ := (List.cons.injEq ..).mp hs
          exact ⟨ks, rest, hcs, hm2⟩

/-- Digits and dots are not white space. -/
theorem digitDot_not_space {c : Char} (h : digitDot c = true) :
    rustSpace c = false := by
  rw [Bool.eq_false_iff]
  intro h'
  simp only [digitDot, Bool.or_eq_true, Bool.and_eq_true, decide_eq_true_eq] at h
  simp only [rustSpace, Bool.or_eq_true, Bool.and_eq_true, decide_eq_true_eq] at h'
  omega

/-- The percent sign is neither a digit nor a dot. -/
theorem digitDot_pct : digitDot '%' = false := by decide

/-- The tail matcher `ETA\s+([^\s]+)` succeeds exactly on lists of the
shape literal-`ETA`, spaces, token, anything. -/
theorem matchEtaAt_isSome (s : List Char) :
    ((matchEtaAt s).isSome = true) ↔
      ∃ sp eta rest, s = ['E', 'T', 'A'] ++ sp ++ eta ++ rest ∧
        spaceRun sp ∧ nonSpaceRun eta := by
  constructor
  · intro h
    rw [matchEtaAt, bindIsSome] at h
    obtain ⟨afterLit, hd, h⟩ := h
    rw [bindIsSome] at h
    obtain ⟨x, hx, h⟩ := h
    rw [Option.isSome_map'] at h
    obtain ⟨y, hy⟩ := Option.isSome_iff_exists.mp h
    obtain ⟨hs1, hne1, hall1⟩ := munchPlus_eq_some hx
    obtain ⟨hs2, hne2, hall2⟩ := munchPlus_eq_some hy
    rw [dropLit_eq_some_iff] at hd
    refine ⟨x.1, y.1, y.2, ?_, ⟨hne1, hall1⟩, ⟨hne2, fun c hc => ?_⟩⟩
    · rw [hd, hs1, hs2]
      simp [List.append_assoc]
    · simpa [nonSpace] using hall2 c hc
  · rintro ⟨sp, eta, rest, hs, ⟨hspne, hsp⟩, ⟨hetane, heta⟩⟩
    rcases eta with _ | ⟨e, eta'⟩
    · exact absurd rfl hetane
    have he : rustSpace e = false := heta e (List.mem_cons_self ..)
    have h1 : dropLit ['E', 'T', 'A'] s = some (sp ++ e :: (eta' ++ rest)) := by
      rw [dropLit_eq_some_iff, hs]
      simp [List.append_assoc]
    have h2 : munchPlus rustSpace (sp ++ e :: (eta' ++ rest)) =
        some (sp, e :: (eta' ++ rest)) :=
      munchPlus_append hsp hspne he
    rw [matchEtaAt, h1, Option.some_bind, h2, Option.some_bind, Option.isSome_map']
    exact munchPlus_isSome_cons _ (by simp [nonSpace, he])

/-- Soundness of the rate-capture backtracking loop: success splits the
input into a token extension and a rest accepted by the ETA search. -/
theorem group2Aux_sound : ∀ (s acc : List Char),
    (group2Aux acc s).isSome = true →
    ∃ ext rest, s = ext ++ rest ∧ (∀ c ∈ ext, rustSpace c = false) ∧
      (searchEta rest).isSome = true
  | [], acc, h => by
    refine ⟨[], [], rfl, by simp, ?_⟩
    rw [group2Aux, Option.isSome_map'] at h
    exact h
  | c :: cs, acc, h => by
    rw [group2Aux] at h
    by_cases hc : nonSpace c = true
    · rw [if_pos hc, orIsSome] at h
      rcases h with h | h
      · obtain ⟨ext, rest, hcs, hext, hse⟩ := group2Aux_sound cs (c :: acc) h
        refine ⟨c :: ext, rest, by rw [hcs, List.cons_append], ?_, hse⟩
        intro d hd
        rcases List.mem_cons.mp hd with h' | h'
        · rw [h']
          simpa [nonSpace] using hc
        · exact hext d h'
      · rw [Option.isSome_map'] at h
        exact ⟨[], c :: cs, rfl, by simp, h⟩
    · rw [if_neg hc, Option.isSome_map'] at h
      exact ⟨[], c :: cs, rfl, by simp, h⟩

/-- Completeness of the rate-capture backtracking loop: any token
extension followed by an accepted rest is found. -/
theorem group2Aux_complete : ∀ (ext rest acc : List Char),
    (∀ c ∈ ext, rustSpace c = false) → (searchEta rest).isSome = true →
    (group2Aux acc (ext ++ rest)).isSome = true
  | [], rest, acc, _, hse => by
    rw [List.nil_append]
    cases rest with
    | nil =>
      rw [group2Aux, Option.isSome_map']
      exact hse
    | cons c cs =>
      rw [group2Aux]
      by_cases hc : nonSpace c = true
      · rw [if_pos hc, orIsSome, Option.isSome_map']
        right
        exact hse
      · rw [if_neg hc, Option.isSome_map']
        exact hse
  | e :: ext', rest, acc, hext, hse => by
    have he : rustSpace e = false := hext e (List.mem_cons_self ..)
    have ih := group2Aux_complete ext' rest (e :: acc)
      (fun c hc => hext c (List.mem_cons_of_mem _ hc)) hse
    rw [List.cons_append, group2Aux, if_pos (by simp [nonSpace, he]), orIsSome]
    left
    exact ih

/-- The fragment `([^\s]+).*?ETA\s+([^\s]+)` succeeds exactly on a
nonempty token followed by a rest accepted by the ETA search. -/
theorem group2Search_isSome (s : List Char) :
    ((group2Search s).isSome = true) ↔
      ∃ rate rest, s = rate ++ rest ∧ nonSpaceRun rate ∧
        (searchEta rest).isSome = true := by
  constructor
  · intro h
    cases s with
    | nil => simp [group2Search] at h
    | cons c cs =>
      rw [group2Search] at h
      by_cases hc : nonSpace c = true
      · rw [if_pos hc] at h
        obtain ⟨ext, rest, hcs, hext, hse⟩ := group2Aux_sound cs [c] h
        refine ⟨c :: ext, rest, by rw [hcs, List.cons_append], ⟨by simp, ?_⟩, hse⟩
        intro d hd
        rcases List.mem_cons.mp hd with h' | h'
        · rw [h']
          simpa [nonSpace] using hc
        · exact hext d h'
      · rw [if_neg hc] at h
        simp at h
  · rintro ⟨rate, rest, hs, ⟨hrne, hrate⟩, hse⟩
    rcases rate with _ | ⟨r, rate'⟩
    · exact absurd rfl hrne
    have hr : rustSpace r = false := hrate r (List.mem_cons_self ..)
    rw [hs, List.cons_append, group2Search, if_pos (by simp [nonSpace, hr])]
    exact group2Aux_complete rate' rest [r]
      (fun c hc => hrate c (List.mem_cons_of_mem _ hc)) hse

/-- The fragment `at\s+([^\s]+).*?ETA\s+([^\s]+)` succeeds exactly on
the literal `at`, spaces, a token, and an accepted rest. -/
theorem matchAtPos_isSome (s : List Char) :
    ((matchAtPos s).isSome = true) ↔
      ∃ sp rate rest, s = ['a', 't'] ++ sp ++ rate ++ rest ∧
        spaceRun sp ∧ nonSpaceRun rate ∧ (searchEta rest).isSome = true := by
  constructor
  · intro h
    rw [matchAtPos, bindIsSome] at h
    obtain ⟨afterLit, hd, h⟩ := h
    rw [bindIsSome] at h
    obtain ⟨x, hx, h⟩ := h
    rw [group2Search_isSome] at h
    obtain ⟨rate, rest, hx2, hrate, hse⟩ := h
    obtain ⟨hs1, hne1, hall1⟩ := munchPlus_eq_some hx
    rw [dropLit_eq_some_iff] at hd
    refine ⟨x.1, rate, rest, ?_, ⟨hne1, hall1⟩, hrate, hse⟩
    rw [hd, hs1, hx2]
    simp [List.append_assoc]
  · rintro ⟨sp, rate, rest, hs, ⟨hspne, hsp⟩, hrate, hse⟩
    rcases hrate with ⟨hrne, hrateAll⟩
    rcases rate with _ | ⟨r, rate'⟩
    · exact absurd rfl hrne
    have hr : rustSpace r = false := hrateAll r (List.mem_cons_self ..)
    have h1 : dropLit ['a', 't'] s = some (sp ++ r :: (rate' ++ rest)) := by
      rw [dropLit_eq_some_iff, hs]
      simp [List.append_assoc]
    have h2 : munchPlus rustSpace (sp ++ r :: (rate' ++ rest)) =
        some (sp, r :: (rate' ++ rest)) :=
      munchPlus_append hsp hspne hr
    rw [matchAtPos, h1, Option.some_bind, h2, Option.some_bind]
    rw [group2Search_isSome]
    exact ⟨r :: rate', rest, by rw [List.cons_append], ⟨by simp, hrateAll⟩, hse⟩

/-- The anchored front of the regex succeeds exactly on the
`[download]` tag, spaces, a percentage number, a percent sign and an
accepted rest. -/
theorem matchDownloadAt_isSome (s : List Char) :
    ((matchDownloadAt s).isSome = true) ↔
      ∃ sp num rest, s = "[download]".toList ++ sp ++ num ++ ['%'] ++ rest ∧
        spaceRun sp ∧ numRun num ∧ (searchAt rest).isSome = true := by
  constructor
  · intro h
    rw [matchDownloadAt, bindIsSome] at h
    obtain ⟨afterTag, hd, h⟩ := h
    rw [bindIsSome] at h
    obtain ⟨x, hx, h⟩ := h
    rw [bindIsSome] at h
    obtain ⟨y, hy, h⟩ := h
    rw [bindIsSome] at h
    obtain ⟨rest, hp, h⟩ := h
    rw [Option.isSome_map'] at h
    obtain ⟨hs1, hne1, hall1⟩ := munchPlus_eq_some hx
    obtain ⟨hs2, hne2, hall2⟩ := munchPlus_eq_some hy
    rw [dropLit_eq_some_iff] at hd
    rw [dropLit_eq_some_iff] at hp
    refine ⟨x.1, y.1, rest, ?_, ⟨hne1, hall1⟩, ⟨hne2, hall2⟩, h⟩
    rw [hd, hs1, hs2, hp]
    simp [List.append_assoc]
  · rintro ⟨sp, num, rest, hs, ⟨hspne, hsp⟩, ⟨hnumne, hnum⟩, hsa⟩
    rcases num with _ | ⟨n, num'⟩
    · exact absurd rfl hnumne
    have hn : digitDot n = true := hnum n (List.mem_cons_self ..)
    have h1 : dropLit "[download]".toList s =
        some (sp ++ n :: (num' ++ '%' :: rest)) := by
      rw [dropLit_eq_some_iff, hs]
      simp [List.append_assoc]
    have h2 : munchPlus rustSpace (sp ++ n :: (num' ++ '%' :: rest)) =
        some (sp, n :: (num' ++ '%' :: rest)) :=
      munchPlus_append hsp hspne (digitDot_not_space hn)
    have h3 : munchPlus digitDot (n :: (num' ++ '%' :: rest)) =
        some (n :: num', '%' :: rest) :=
      @munchPlus_append digitDot (n :: num') '%' rest
        (fun c hc => hnum c hc) (by simp) digitDot_pct
    rw [matchDownloadAt, h1, Option.some_bind, h2, Option.some_bind, h3,
      Option.some_bind]
    have h4 : dropLit ['%'] ('%' :: rest) = some rest := by
      rw [dropLit_eq_some_iff]
      rfl
    rw [h4, Option.some_bind, Option.isSome_map']
    exact hsa

/-- The full unanchored progress-regex search succeeds exactly on lines
of the specified shape. -/
theorem progressSearch_isSome_iff (line : String) :
    ((progressSearch line.toList).isSome = true) ↔ ProgressShape line := by
  rw [progressSearch, anySkip_isSome]
  constructor
  · rintro ⟨pre, rest0, hs, hm⟩
    rw [matchDownloadAt_isSome] at hm
    obtain ⟨sp1, num, rest1, h1, hsp1, hnum, hsa⟩ := hm
    rw [searchAt, lazySkip_isSome] at hsa
    obtain ⟨mid1, rest2, h2, hmid1, hap⟩ := hsa
    rw [matchAtPos_isSome] at hap
    obtain ⟨sp2, rate, rest3, h3, hsp2, hrate, hse⟩ := hap
    rw [searchEta, lazySkip_isSome] at hse
    obtain ⟨mid2, rest4, h4, hmid2, hea⟩ := hse
    rw [matchEtaAt_isSome] at hea
    obtain ⟨sp3, eta, post, h5, hsp3, heta⟩ := hea
    refine ⟨pre, sp1, num, mid1, sp2, rate, mid2, sp3, eta, post, ?_,
      hsp1, hnum, hmid1, hsp2, hrate, hmid2, hsp3, heta⟩
    rw [hs, h1, h2, h3, h4, h5]
    simp [List.append_assoc]
  · rintro ⟨pre, sp1, num, mid1, sp2, rate, mid2, sp3, eta, post, hline,
      hsp1, hnum, hmid1, hsp2, hrate, hmid2, hsp3, heta⟩
    refine ⟨pre, "[download]".toList ++ sp1 ++ num ++ ['%'] ++
      (mid1 ++ (['a', 't'] ++ sp2 ++ rate ++
        (mid2 ++ (['E', 'T', 'A'] ++ sp3 ++ eta ++ post)))), ?_, ?_⟩
    · rw [hline]
      simp [List.append_assoc]
    · rw [matchDownloadAt_isSome]
      refine ⟨sp1, num, _, rfl, hsp1, hnum, ?_⟩
      rw [searchAt, lazySkip_isSome]
      refine ⟨mid1, _, rfl, hmid1, ?_⟩
      rw [matchAtPos_isSome]
      refine ⟨sp2, rate, _, rfl, hsp2, hrate, ?_⟩
      rw [searchEta, lazySkip_isSome]
      refine ⟨mid2, _, rfl, hmid2, ?_⟩
      rw [matchEtaAt_isSome]
      exact ⟨sp3, eta, post, rfl, hsp3, heta⟩

/-- C5: the line classifier maps
`"[download]  42.5% of 10MiB at 1.2MiB/s ETA 00:07"` to a progress tuple
with percent 42.5, rate `"1.2MiB/s"` and eta `"00:07"`; and in general a
line yields a progress tuple exactly when it matches the fixed pattern —
a `[download]` tag, a percentage number, the token `at`, a rate token,
the token `ETA`, an ETA token, with arbitrary surrounding material
tolerated. -/
theorem progress_classifier_spec :
    classify_progress "job-1" "[download]  42.5% of 10MiB at 1.2MiB/s ETA 00:07" =
      some { id := "job-1", percent := some ((85 : ℚ) / 2),
             speed := some "1.2MiB/s", eta := some "00:07" } ∧
    ∀ (id line : String),
      ((classify_progress id line).isSome = true) ↔ ProgressShape line := by
  constructor
  · have h1 : progress_captures "[download]  42.5% of 10MiB at 1.2MiB/s ETA 00:07" =
        some ("42.5", "1.2MiB/s", "00:07") := by decide
    have h2 : parse_f32 "42.5" = some (mkRat 425 10) := by decide
    rw [classify_progress, h1, Option.map_some', h2]
    norm_num [Rat.mkRat_eq_div]
  · intro id line
    rw [classify_progress, Option.isSome_map', progress_captures,
      Option.isSome_map']
    exact progressSearch_isSome_iff line

end PineFetch
